import Mathlib

/-!
# Concurrent traffic simulation: `MessageQueue` and `TrafficLight`

A shallow embedding of `src/TrafficLight.cpp`.

* `MessageQueue<T>::_queue` is a `std::deque<T>`; it is embedded as a `List T` whose last
  element is the deque's back.  `send` is `push_back`, `receive` is `back` + `pop_back`.
* A call that blocks (the predicate of `_condition_priv.wait` is false and nobody sends) is
  embedded as the result `none`.
* `std::chrono::system_clock` time points are integers counting nanoseconds (the clock's
  period with libstdc++); `duration_cast<seconds>` truncates toward zero (`Int.tdiv`).
  Differences of time points are taken in `Int`: two readings of the same clock are far
  from overflowing the 64-bit representation.
* Every clock reading is an input of the model, so the clock may also stand still or be set
  back unless a statement says otherwise.
* `std::mt19937` together with `std::uniform_int_distribution<>(4, 6)` is a parameter
  `distr : Nat → Int × Nat` (engine state in, drawn value and next engine state out).
-/

namespace TrafficSim

/-- The enumeration `TrafficLightPhase`. -/
inductive TrafficLightPhase where
  | red
  | green
  deriving DecidableEq, Repr

open TrafficLightPhase

/-- The other phase: what the `if`/`else` of the timer loop assigns when the current phase
is `p`. -/
def TrafficLightPhase.opposite : TrafficLightPhase → TrafficLightPhase
  | red => green
  | green => red

/-! ## MessageQueue -/

namespace MessageQueue

/-- `MessageQueue<T>::receive` on the queue content `_queue`: waits until the queue is not
empty (`none`: the caller stays blocked), then moves out `_queue.back()` and pops it.  The
result is the message together with the queue that is left. -/
def receive {T : Type} (_queue : List T) : Option (T × List T) :=
  match _queue.getLast? with
  | none => none
  | some msg => some (msg, _queue.dropLast)

/-- `MessageQueue<T>::send`: `_queue.push_back(std::move(msg))` (then `notify_one`). -/
def send {T : Type} (_queue : List T) (msg : T) : List T :=
  _queue ++ [msg]

/-- Calls `send` once for each element of `msgs`, first element first. -/
def sendAll {T : Type} (_queue : List T) (msgs : List T) : List T :=
  msgs.foldl send _queue

/-- Calls `receive` `n` times in a row.  The result lists the messages in the order they were
received, with the queue that is left; `none` when one of the calls blocks. -/
def receiveN {T : Type} : Nat → List T → Option (List T × List T)
  | 0, _queue => some ([], _queue)
  | n + 1, _queue =>
    match receive _queue with
    | none => none
    | some (msg, rest) =>
      match receiveN n rest with
      | none => none
      | some (msgs, left) => some (msg :: msgs, left)

end MessageQueue

/-! ## TrafficLight -/

/-- The members of `TrafficLight` that the source file reads or writes: `_currentPhase` and
the content of the queue behind `_message_queue`. -/
structure TrafficLight where
  _currentPhase : TrafficLightPhase
  _message_queue : List TrafficLightPhase
  deriving DecidableEq, Repr

namespace TrafficLight

/-- The constructor `TrafficLight::TrafficLight()`. -/
def new : TrafficLight :=
  { _currentPhase := red, _message_queue := [] }

/-- `TrafficLight::getCurrentPhase`. -/
def getCurrentPhase (tl : TrafficLight) : TrafficLightPhase :=
  tl._currentPhase

/-- `TrafficLight::setCurrentPhase`. -/
def setCurrentPhase (tl : TrafficLight) (color : TrafficLightPhase) : TrafficLight :=
  { tl with _currentPhase := color }

/-- One pass through the body of the `while (true)` loop of `waitForGreen`: `receive` on the
message queue into the local variable `_currentPhase` (which shadows the member, so the
member is not written), then the comparison with `green`.  `none`: `receive` blocks.
Otherwise the light afterwards, the value received, and whether the method returns. -/
def waitForGreenIter (tl : TrafficLight) :
    Option (TrafficLight × TrafficLightPhase × Bool) :=
  match MessageQueue.receive tl._message_queue with
  | none => none
  | some (_currentPhase, rest) =>
    some ({ tl with _message_queue := rest }, _currentPhase, decide (_currentPhase = green))

end TrafficLight

/-- How a run of `waitForGreen` without concurrent senders ends: the method returned, or it
is blocked in `receive` for ever, or the iteration budget of the model was used up.  Each
carries the light at that point and the values received so far, oldest first. -/
inductive WaitResult where
  | returned (tl : TrafficLight) (received : List TrafficLightPhase)
  | blocked (tl : TrafficLight) (received : List TrafficLightPhase)
  | unfinished (tl : TrafficLight) (received : List TrafficLightPhase)
  deriving DecidableEq, Repr

namespace TrafficLight

/-- `TrafficLight::waitForGreen` run for at most `fuel` passes of its loop, with nobody
sending in the meantime.  `received` accumulates the values received. -/
def waitForGreenLoop : Nat → TrafficLight → List TrafficLightPhase → WaitResult
  | 0, tl, received => WaitResult.unfinished tl received
  | fuel + 1, tl, received =>
    match waitForGreenIter tl with
    | none => WaitResult.blocked tl received
    | some (tl1, msg, done) =>
      if done then WaitResult.returned tl1 (received ++ [msg])
      else waitForGreenLoop fuel tl1 (received ++ [msg])

/-- `TrafficLight::waitForGreen` with a budget of `fuel` loop passes. -/
def waitForGreen (fuel : Nat) (tl : TrafficLight) : WaitResult :=
  waitForGreenLoop fuel tl []

end TrafficLight

/-! ## The timer loop `cycleThroughPhases` -/

/-- Number of `system_clock` ticks (nanoseconds) in one second. -/
def nanosPerSecond : Int := 1000000000

/-- The local variables of `cycleThroughPhases` that live across loop passes: the random
engine `eng`, `cycle_duration` and `last_update`. -/
structure CycleLocals where
  eng : Nat
  cycle_duration : Int
  last_update : Int
  deriving DecidableEq, Repr

/-- What `std::uniform_int_distribution<>(4, 6)` guarantees of every draw. -/
def DistrInRange (distr : Nat → Int × Nat) : Prop :=
  ∀ eng : Nat, 4 ≤ (distr eng).1 ∧ (distr eng).1 ≤ 6

/-- A concrete generator within that range, used for the worked examples: it yields
`4 + eng % 3` and moves the engine to `eng + 1`. -/
def cyclingDistr (eng : Nat) : Int × Nat :=
  (4 + ((eng % 3 : Nat) : Int), eng + 1)

/-- A second concrete generator: every draw is 6. -/
def slowDistr (eng : Nat) : Int × Nat :=
  (6, eng + 1)

namespace TrafficLight

/-- The part of `cycleThroughPhases` before the loop: the engine is seeded (`seed` is the value
of `rd()`), the first `cycle_duration` is drawn and `last_update` is sampled (`now`). -/
def cycleThroughPhasesEnter (distr : Nat → Int × Nat) (seed : Nat) (now : Int) : CycleLocals :=
  { eng := (distr seed).2, cycle_duration := (distr seed).1, last_update := now }

/-- The value of `time_since_last_update` when the clock reads `current_time`. -/
def timeSinceLastUpdate (loc : CycleLocals) (current_time : Int) : Int :=
  Int.tdiv (current_time - loc.last_update) nanosPerSecond

/-- The test `time_since_last_update >= cycle_duration` of the loop. -/
def transitionDue (loc : CycleLocals) (current_time : Int) : Bool :=
  decide (timeSinceLastUpdate loc current_time ≥ loc.cycle_duration)

/-- One pass through the body of the loop of `cycleThroughPhases`.  `current_time` is the
clock sample at the top of the pass, `update_time` the sample stored into `last_update`
(read only when the pass performs a transition). -/
def cycleThroughPhasesIter (distr : Nat → Int × Nat) (tl : TrafficLight) (loc : CycleLocals)
    (current_time update_time : Int) : TrafficLight × CycleLocals :=
  let time_since_last_update := Int.tdiv (current_time - loc.last_update) nanosPerSecond
  if time_since_last_update ≥ loc.cycle_duration then
    let tl1 : TrafficLight :=
      if tl._currentPhase = red then { tl with _currentPhase := green }
      else { tl with _currentPhase := red }
    let _currentPhase := tl1.getCurrentPhase
    let tl2 : TrafficLight :=
      { tl1 with _message_queue := MessageQueue.send tl1._message_queue _currentPhase }
    ( tl2,
      { eng := (distr loc.eng).2, cycle_duration := (distr loc.eng).1,
        last_update := update_time } )
  else (tl, loc)

/-- The loop of `cycleThroughPhases` run for one pass per element of `samples`; each element
holds the pass's `current_time` and `update_time`. -/
def cycleThroughPhasesLoop (distr : Nat → Int × Nat) :
    TrafficLight × CycleLocals → List (Int × Int) → TrafficLight × CycleLocals
  | st, [] => st
  | st, s :: rest =>
    cycleThroughPhasesLoop distr (cycleThroughPhasesIter distr st.1 st.2 s.1 s.2) rest

end TrafficLight

/-- A record of one transition of the timer loop: the `last_update` and `cycle_duration` in
force when the pass started, the pass's two clock samples and the phase it published. -/
structure Transition where
  baseline : Int
  duration : Int
  current_time : Int
  update_time : Int
  published : TrafficLightPhase
  deriving DecidableEq, Repr

namespace TrafficLight

/-- The transitions performed by `cycleThroughPhasesLoop` on `samples`, oldest first. -/
def transitionsOf (distr : Nat → Int × Nat) :
    TrafficLight × CycleLocals → List (Int × Int) → List Transition
  | _, [] => []
  | st, s :: rest =>
    let next := cycleThroughPhasesIter distr st.1 st.2 s.1 s.2
    if transitionDue st.2 s.1 then
      { baseline := st.2.last_update, duration := st.2.cycle_duration,
        current_time := s.1, update_time := s.2,
        published := next.1._currentPhase } :: transitionsOf distr next rest
    else transitionsOf distr next rest

end TrafficLight

/-- Whether the clock samples of the passes never decrease, starting from the sample `last`
taken before them; each pass reads `current_time` first and `update_time` after it. -/
def nonDecreasing : Int → List (Int × Int) → Bool
  | _, [] => true
  | last, s :: rest => decide (last ≤ s.1) && decide (s.1 ≤ s.2) && nonDecreasing s.2 rest

/-- Whether every pass reads its `current_time` at most `gap` after the pass before it did
(the first pass: at most `gap` after the sample `prev` taken on entry). -/
def ticksWithin (gap : Int) : Int → List (Int × Int) → Bool
  | _, [] => true
  | prev, s :: rest => decide (s.1 - prev ≤ gap) && ticksWithin gap s.1 rest

/-- Clock samples of a run with passes at most 50 ms apart, every duration being 6 s: the
pass at 6.000 s performs the first transition and stores its baseline 49 ms later; the
passes after it come at 6.050 s, 6.098 s and then every 50 ms, so the pass at 12.048 s is
1 ms short of 6 s after the baseline and the pass at 12.098 s performs the second
transition. -/
def lateSamples : List (Int × Int) :=
  (List.range 119).map (fun k => (50000000 * ((k : Int) + 1), 50000000 * ((k : Int) + 1)))
    ++ [(6000000000, 6049000000), (6050000000, 6050000000)]
    ++ (List.range 120).map
        (fun k => (6098000000 + 50000000 * (k : Int), 6098000000 + 50000000 * (k : Int)))
    ++ [(12098000000, 12147000000)]

/-- The facts about two consecutive transitions `t`, `t1` that need only a clock that never
goes back. -/
def LinkLow (t t1 : Transition) : Prop :=
  t1.baseline = t.update_time ∧ 4 ≤ t1.duration ∧ t1.duration ≤ 6 ∧
  t1.duration * nanosPerSecond ≤ t1.current_time - t1.baseline ∧
  t.current_time ≤ t.update_time ∧ t1.current_time ≤ t1.update_time

/-- The facts about two consecutive transitions that need passes at most `gap` apart. -/
def LinkUpp (gap : Int) (t t1 : Transition) : Prop :=
  t1.current_time - t1.baseline < t1.duration * nanosPerSecond + gap ∧
  t1.current_time - t.current_time < 6 * nanosPerSecond + 2 * gap

/-! ## The controller with its timer task and its waiters -/

/-- A task that called `waitForGreen`: still in the loop, or returned. -/
inductive Waiter where
  | looping
  | returned
  deriving DecidableEq, Repr

/-- The controller together with the tasks working on it: the timer task (`none` until
`simulate` is called) and the tasks that called `waitForGreen`. -/
structure System where
  light : TrafficLight
  timer : Option CycleLocals
  waiters : List Waiter
  deriving DecidableEq, Repr

/-- The atomic steps of the tasks.
* `simulate seed now`: `simulate()` starts the timer task, which runs up to its loop;
* `tick current_time update_time`: the timer task makes one pass through its loop;
* `call`: a new task calls `waitForGreen`;
* `receive i`: the `i`-th waiter makes one pass through its loop (its `receive` completes).

`send` and `receive` exclude each other through the queue's mutex, and the timer task is
the only one that writes `_currentPhase` here (`setCurrentPhase` is not among the steps), so
a timer pass is taken as one step: a waiter cannot tell a `receive` between the flip and the
`send` from one before the pass.  For a pass that performs no transition the program does
not read `update_time`; where clock samples are compared it stands for a reading at the end
of the pass. -/
inductive Event where
  | simulate (seed : Nat) (now : Int)
  | tick (current_time update_time : Int)
  | call
  | receive (i : Nat)
  deriving DecidableEq, Repr

namespace System

/-- The state right after `TrafficLight::TrafficLight()`. -/
def fresh : System :=
  { light := TrafficLight.new, timer := none, waiters := [] }

/-- The effect of one event; `none` when the event cannot happen in this state (a pass of
a timer that was not started, a second `simulate`, a `receive` that blocks, a pass of a
waiter that does not exist or has returned). -/
def step (distr : Nat → Int × Nat) (s : System) : Event → Option System
  | Event.simulate seed now =>
    match s.timer with
    | none => some { s with timer := some (TrafficLight.cycleThroughPhasesEnter distr seed now) }
    | some _ => none
  | Event.tick current_time update_time =>
    match s.timer with
    | none => none
    | some loc =>
      let next := TrafficLight.cycleThroughPhasesIter distr s.light loc current_time update_time
      some { s with light := next.1, timer := some next.2 }
  | Event.call => some { s with waiters := s.waiters ++ [Waiter.looping] }
  | Event.receive i =>
    match s.waiters[i]? with
    | some Waiter.looping =>
      match TrafficLight.waitForGreenIter s.light with
      | none => none
      | some (tl1, _, done) =>
        some { s with light := tl1,
                      waiters := s.waiters.set i (if done then Waiter.returned else Waiter.looping) }
    | _ => none

/-- Number of `waitForGreen` calls that have returned. -/
def returnedCount (s : System) : Nat :=
  s.waiters.count Waiter.returned

end System

/-- Bookkeeping over a run, not part of the program's state: the phase taken at each
transition, the value sent at each transition, the values removed by `receive` (all oldest
first), and the number of transitions since the channel was last empty. -/
structure Observed where
  taken : List TrafficLightPhase
  sent : List TrafficLightPhase
  removed : List TrafficLightPhase
  sinceEmpty : Nat
  deriving DecidableEq, Repr

namespace Observed

/-- Nothing has happened yet. -/
def start : Observed :=
  { taken := [], sent := [], removed := [], sinceEmpty := 0 }

/-- Whether the event is a timer pass that performs a transition in state `s`. -/
def isTransition (s : System) : Event → Bool
  | Event.tick current_time _ =>
    match s.timer with
    | none => false
    | some loc => TrafficLight.transitionDue loc current_time
  | _ => false

/-- Whether the event is a waiter's pass. -/
def isReceive : Event → Bool
  | Event.receive _ => true
  | _ => false

/-- Updates the bookkeeping for the step from `s` to `s1` by event `e`. -/
def record (s : System) (e : Event) (s1 : System) (o : Observed) : Observed :=
  let fired := isTransition s e
  { taken := if fired then o.taken ++ [s1.light._currentPhase] else o.taken,
    sent := if fired then o.sent ++ s1.light._message_queue.getLast?.toList else o.sent,
    removed :=
      if isReceive e then o.removed ++ s.light._message_queue.getLast?.toList else o.removed,
    sinceEmpty :=
      if s1.light._message_queue = [] then 0
      else if fired then o.sinceEmpty + 1 else o.sinceEmpty }

end Observed

namespace System

/-- Runs the events in order, keeping the bookkeeping; `none` when one cannot happen. -/
def run (distr : Nat → Int × Nat) : System × Observed → List Event → Option (System × Observed)
  | st, [] => some st
  | st, e :: rest =>
    match step distr st.1 e with
    | none => none
    | some s1 => run distr (s1, Observed.record st.1 e s1 st.2) rest

/-- The states reached from a freshly constructed controller. -/
def Reachable (distr : Nat → Int × Nat) (s : System) (o : Observed) : Prop :=
  ∃ events : List Event, run distr (fresh, Observed.start) events = some (s, o)

end System

/-- The clock samples an event takes, in the order they are taken. -/
def Event.samples : Event → List Int
  | Event.simulate _ now => [now]
  | Event.tick current_time update_time => [current_time, update_time]
  | _ => []

/-- All clock samples of a run, in order. -/
def clockSamples : List Event → List Int
  | [] => []
  | e :: rest => e.samples ++ clockSamples rest

/-- The sequence `green, red, green, …` of length `n`: entry `k` (counted from 0, so the
`k + 1`-st) is `green` when `k` is even. -/
def alternation (n : Nat) : List TrafficLightPhase :=
  (List.range n).map (fun k => if k % 2 = 0 then green else red)

/-- What holds of every state reached from a fresh controller, with its bookkeeping. -/
structure Inv (s : System) (o : Observed) : Prop where
  sent_eq : o.sent = o.taken
  alternates : o.sent = alternation o.sent.length
  phase_eq : s.light._currentPhase = if o.sent.length % 2 = 0 then red else green
  conserved : List.Perm (o.removed ++ s.light._message_queue) o.sent
  bounded : s.light._message_queue.length ≤ o.sinceEmpty
  returned_eq : s.returnedCount = o.removed.count green

/-- A worked run: the timer is started, two tasks call `waitForGreen`, the first transition
(after 4 s) publishes `green`, which the first waiter receives; the second transition (5 s
later) publishes `red`, which the second waiter receives. -/
def exampleEvents : List Event :=
  [ Event.simulate 0 0, Event.call, Event.call,
    Event.tick 3999999999 3999999999,
    Event.tick 4000000000 4001000000, Event.receive 0,
    Event.tick 9001000000 9002000000, Event.receive 1 ]

/-- A worked run in which three transitions pile up in the channel before a waiter arrives
and receives the newest value first. -/
def backlogEvents : List Event :=
  [ Event.simulate 5 1000, Event.tick 6000001000 6000001000,
    Event.tick 10000001000 10000001000, Event.tick 15000001000 15000001000,
    Event.call, Event.receive 0 ]

/-- The scenario: the controller is constructed, `simulate()` is called at time 0, three
tasks call `waitForGreen`, the timer polls, its first transition (after 4 s) publishes
`green`, and the second of the three waiters receives it. -/
def scenarioEvents : List Event :=
  [ Event.simulate 0 0, Event.call, Event.call, Event.call,
    Event.tick 2000000000 2000000000,
    Event.tick 4000000000 4000020000, Event.receive 1 ]

/-- The scenario up to the moment the first transition has published `green` and no waiter
has run since: `scenarioEvents` without its last event. -/
def publishedEvents : List Event :=
  [ Event.simulate 0 0, Event.call, Event.call, Event.call,
    Event.tick 2000000000 2000000000,
    Event.tick 4000000000 4000020000 ]

/-- What holds of the timer's locals in a run whose clock samples never decrease from
`start` on, `last` being the latest sample: every transition so far took at least 4 s. -/
def TimedInv (start last : Int) (s : System) (o : Observed) : Prop :=
  match s.timer with
  | none => o.sent.length = 0
  | some loc =>
    (4 ≤ loc.cycle_duration ∧ loc.cycle_duration ≤ 6) ∧
    start + 4000000000 * (o.sent.length : Int) ≤ loc.last_update ∧
    loc.last_update ≤ last

/-! ## Theorems -/

/-! ### The channel -/

theorem eq_nil_or_snoc {T : Type} (q : List T) :
    q = [] ∨ ∃ (rest : List T) (msg : T), q = rest ++ [msg] := by
  rcases List.eq_nil_or_concat q with h | ⟨rest, msg, h⟩
  · exact Or.inl h
  · exact Or.inr ⟨rest, msg, by rw [h, List.concat_eq_append]⟩

theorem MessageQueue.receive_snoc {T : Type} (q : List T) (x : T) :
    MessageQueue.receive (q ++ [x]) = some (x, q) := by
  simp [MessageQueue.receive]

theorem MessageQueue.receive_eq_none {T : Type} (q : List T) :
    MessageQueue.receive q = none ↔ q = [] := by
  rcases List.eq_nil_or_concat q with h | ⟨l, x, h⟩
  · subst h; simp [MessageQueue.receive]
  · subst h; simp [MessageQueue.receive]

theorem MessageQueue.sendAll_eq {T : Type} (msgs : List T) :
    ∀ q : List T, MessageQueue.sendAll q msgs = q ++ msgs := by
  induction msgs with
  | nil => intro q; simp [MessageQueue.sendAll]
  | cons m rest ih =>
    intro q
    have h := ih (MessageQueue.send q m)
    simp only [MessageQueue.sendAll, List.foldl_cons] at h ⊢
    rw [h]; simp [MessageQueue.send]

theorem MessageQueue.receiveN_append_reverse {T : Type} (msgs : List T) :
    ∀ q : List T,
      MessageQueue.receiveN msgs.length (q ++ msgs.reverse) = some (msgs, q) := by
  induction msgs with
  | nil => intro q; simp [MessageQueue.receiveN]
  | cons m rest ih =>
    intro q
    have h : q ++ (m :: rest).reverse = (q ++ rest.reverse) ++ [m] := by simp
    rw [h, List.length_cons, MessageQueue.receiveN, MessageQueue.receive_snoc]
    simp [ih q]

/-- C2: `receive` completes exactly when the channel is not empty (on the empty channel it
does not return); on the content `q ++ [x]` it returns `x`, the element sent last, and
leaves exactly `q`, order kept. -/
theorem receive_takes_most_recent {T : Type} :
    (∀ q : List T, (MessageQueue.receive q).isSome = true ↔ q ≠ []) ∧
    MessageQueue.receive ([] : List T) = none ∧
    (∀ (q : List T) (x : T), MessageQueue.receive (q ++ [x]) = some (x, q)) := by
  refine ⟨?_, rfl, MessageQueue.receive_snoc⟩
  intro q
  rw [← not_iff_not]
  simp [MessageQueue.receive_eq_none]

/-- C3: `send` always succeeds: it is a total function that leaves the channel holding
`q ++ [v]`; the length grows by exactly one and the elements already present keep their
values and positions. -/
theorem send_appends {T : Type} (q : List T) (v : T) :
    MessageQueue.send q v = q ++ [v] ∧
    (MessageQueue.send q v).length = q.length + 1 ∧
    (MessageQueue.send q v).take q.length = q ∧
    (∀ i : Nat, i < q.length → (MessageQueue.send q v)[i]? = q[i]?) ∧
    (MessageQueue.send q v)[q.length]? = some v := by
  refine ⟨rfl, by simp [MessageQueue.send], by simp [MessageQueue.send], ?_, ?_⟩
  · intro i hi
    simp [MessageQueue.send, List.getElem?_append_left hi]
  · simp [MessageQueue.send]

/-- C6: after sending the `N` elements of `vs` in order, `N` receives all complete, return
the elements of `vs` each exactly once, in reverse order of sending, and leave the channel
holding `q` again; a receive directly after `send v` returns `v`. -/
theorem sends_then_receives {T : Type} (q vs : List T) (v : T) :
    MessageQueue.receiveN vs.length (MessageQueue.sendAll q vs) = some (vs.reverse, q) ∧
    MessageQueue.receive (MessageQueue.send q v) = some (v, q) := by
  constructor
  · have h := MessageQueue.receiveN_append_reverse vs.reverse q
    rw [MessageQueue.sendAll_eq]
    simpa using h
  · exact MessageQueue.receive_snoc q v

/-! ### `waitForGreen` on a channel nobody sends to -/

theorem TrafficLightPhase.eq_red_of_ne_green {x : TrafficLightPhase} (h : x ≠ green) :
    x = red := by
  cases x
  · rfl
  · exact absurd rfl h

theorem TrafficLight.waitForGreenIter_nil (p : TrafficLightPhase) :
    TrafficLight.waitForGreenIter ⟨p, []⟩ = none := rfl

theorem TrafficLight.waitForGreenIter_snoc (p : TrafficLightPhase)
    (rest : List TrafficLightPhase) (msg : TrafficLightPhase) :
    TrafficLight.waitForGreenIter ⟨p, rest ++ [msg]⟩
      = some (⟨p, rest⟩, msg, decide (msg = green)) := by
  simp [TrafficLight.waitForGreenIter, MessageQueue.receive_snoc]

theorem TrafficLight.waitForGreenLoop_returned (fuel : Nat) :
    ∀ (p : TrafficLightPhase) (q acc : List TrafficLightPhase) (tl1 : TrafficLight)
      (received : List TrafficLightPhase),
      TrafficLight.waitForGreenLoop fuel ⟨p, q⟩ acc = WaitResult.returned tl1 received →
      ∃ pre post, q = pre ++ green :: post ∧ (∀ x ∈ post, x = red) ∧
        received = acc ++ (post.reverse ++ [green]) ∧ tl1 = ⟨p, pre⟩ := by
  induction fuel with
  | zero => intro p q acc tl1 received h; simp [TrafficLight.waitForGreenLoop] at h
  | succ n ih =>
    intro p q acc tl1 received h
    rcases eq_nil_or_snoc q with hq | ⟨rest, msg, hq⟩
    · subst hq
      simp [TrafficLight.waitForGreenLoop, TrafficLight.waitForGreenIter_nil] at h
    · subst hq
      rw [TrafficLight.waitForGreenLoop, TrafficLight.waitForGreenIter_snoc] at h
      by_cases hm : msg = green
      · subst hm
        simp only [decide_True, if_true, WaitResult.returned.injEq] at h
        exact ⟨rest, [], by simp, by simp, by simp [h.2], h.1.symm⟩
      · simp only [hm, decide_False, Bool.false_eq_true, if_false] at h
        obtain ⟨pre, post, h1, h2, h3, h4⟩ := ih p rest (acc ++ [msg]) tl1 received h
        refine ⟨pre, post ++ [msg], by simp [h1], ?_, by simp [h3], h4⟩
        intro x hx
        rcases List.mem_append.1 hx with hx | hx
        · exact h2 x hx
        · rw [List.mem_singleton.1 hx]
          exact TrafficLightPhase.eq_red_of_ne_green hm

theorem TrafficLight.waitForGreenLoop_progress (fuel : Nat) :
    ∀ (p : TrafficLightPhase) (q acc : List TrafficLightPhase),
      green ∈ q → q.length ≤ fuel →
      ∃ tl1 received,
        TrafficLight.waitForGreenLoop fuel ⟨p, q⟩ acc = WaitResult.returned tl1 received := by
  induction fuel with
  | zero =>
    intro p q acc hg hl
    have : q = [] := List.length_eq_zero.1 (Nat.le_zero.1 hl)
    subst this
    simp at hg
  | succ n ih =>
    intro p q acc hg hl
    rcases eq_nil_or_snoc q with hq | ⟨rest, msg, hq⟩
    · subst hq; simp at hg
    · subst hq
      rw [TrafficLight.waitForGreenLoop, TrafficLight.waitForGreenIter_snoc]
      by_cases hm : msg = green
      · exact ⟨⟨p, rest⟩, acc ++ [msg], by simp [hm]⟩
      · simp only [hm, decide_False, Bool.false_eq_true, if_false]
        apply ih
        · rcases List.mem_append.1 hg with h | h
          · exact h
          · exact absurd (List.mem_singleton.1 h).symm hm
        · simp at hl; omega

theorem TrafficLight.waitForGreenLoop_blocked (fuel : Nat) :
    ∀ (p : TrafficLightPhase) (q acc : List TrafficLightPhase),
      green ∉ q → q.length < fuel →
      TrafficLight.waitForGreenLoop fuel ⟨p, q⟩ acc
        = WaitResult.blocked ⟨p, []⟩ (acc ++ q.reverse) := by
  induction fuel with
  | zero => intro p q acc _ hl; omega
  | succ n ih =>
    intro p q acc hg hl
    rcases eq_nil_or_snoc q with hq | ⟨rest, msg, hq⟩
    · subst hq
      simp [TrafficLight.waitForGreenLoop, TrafficLight.waitForGreenIter_nil]
    · subst hq
      have hm : msg ≠ green := fun h => hg (by simp [h])
      have hr : green ∉ rest := fun h => hg (by simp [h])
      rw [TrafficLight.waitForGreenLoop, TrafficLight.waitForGreenIter_snoc]
      simp only [hm, decide_False, Bool.false_eq_true, if_false]
      rw [ih p rest (acc ++ [msg]) hr (by simp at hl; omega)]
      simp

/-- C1: on a channel holding `q` with no concurrent sends, `waitForGreen` returns if and
only if `q` contains `green` (any budget of at least `q.length` passes is enough; without
a `green` it ends blocked on the emptied channel).  When it returns, `q` splits as
`pre ++ green :: post` with no `green` in `post`: the values received are `post` in
reverse, all `red`, followed by `green` as the last one, the channel is left holding `pre`,
and the member `_currentPhase` is unchanged. -/
theorem waitForGreen_returns_on_green (tl : TrafficLight) :
    ((∃ fuel tl1 received, tl.waitForGreen fuel = WaitResult.returned tl1 received)
        ↔ green ∈ tl._message_queue) ∧
    (green ∈ tl._message_queue → ∀ fuel, tl._message_queue.length ≤ fuel →
        ∃ tl1 received, tl.waitForGreen fuel = WaitResult.returned tl1 received) ∧
    (green ∉ tl._message_queue → ∀ fuel, tl._message_queue.length < fuel →
        tl.waitForGreen fuel
          = WaitResult.blocked ⟨tl._currentPhase, []⟩ tl._message_queue.reverse) ∧
    (∀ fuel tl1 received, tl.waitForGreen fuel = WaitResult.returned tl1 received →
        ∃ pre post, tl._message_queue = pre ++ green :: post ∧ green ∉ post ∧
          received = post.reverse ++ [green] ∧
          (∀ x ∈ received.dropLast, x = red) ∧ received.getLast? = some green ∧
          tl1._message_queue = pre ∧ tl1._currentPhase = tl._currentPhase) := by
  obtain ⟨p, q⟩ := tl
  have key : ∀ fuel tl1 received,
      TrafficLight.waitForGreen fuel ⟨p, q⟩ = WaitResult.returned tl1 received →
      ∃ pre post, q = pre ++ green :: post ∧ green ∉ post ∧
        received = post.reverse ++ [green] ∧
        (∀ x ∈ received.dropLast, x = red) ∧ received.getLast? = some green ∧
        tl1._message_queue = pre ∧ tl1._currentPhase = p := by
    intro fuel tl1 received h
    obtain ⟨pre, post, h1, h2, h3, h4⟩ :=
      TrafficLight.waitForGreenLoop_returned fuel p q [] tl1 received h
    simp only [List.nil_append] at h3
    refine ⟨pre, post, h1, ?_, h3, ?_, ?_, by rw [h4], by rw [h4]⟩
    · intro hg
      exact absurd (h2 green hg) (by decide)
    · intro x hx
      rw [h3, List.dropLast_concat] at hx
      exact h2 x (List.mem_reverse.1 hx)
    · rw [h3]; simp
  refine ⟨⟨?_, ?_⟩, ?_, ?_, key⟩
  · rintro ⟨fuel, tl1, received, h⟩
    obtain ⟨pre, post, h1, _⟩ := key fuel tl1 received h
    simp [h1]
  · intro hg
    obtain ⟨tl1, received, h⟩ :=
      TrafficLight.waitForGreenLoop_progress q.length p q [] hg (Nat.le_refl _)
    exact ⟨q.length, tl1, received, h⟩
  · intro hg fuel hl
    exact TrafficLight.waitForGreenLoop_progress fuel p q [] hg hl
  · intro hg fuel hl
    have h := TrafficLight.waitForGreenLoop_blocked fuel p q [] hg hl
    simpa [TrafficLight.waitForGreen] using h

/-! ### One pass of the timer loop -/

theorem tdiv_ge_iff_of_pos {e d : Int} (hd : 0 < d) :
    d ≤ Int.tdiv e nanosPerSecond ↔ d * nanosPerSecond ≤ e := by
  have hN : (0 : Int) < nanosPerSecond := by decide
  rcases le_or_lt 0 e with he | he
  · rw [Int.tdiv_eq_ediv he (le_of_lt hN)]
    exact Int.le_ediv_iff_mul_le hN
  · have h1 : Int.tdiv e nanosPerSecond ≤ 0 := by
      have h2 : 0 ≤ Int.tdiv (-e) nanosPerSecond :=
        Int.tdiv_nonneg (by omega) (le_of_lt hN)
      rw [Int.neg_tdiv] at h2
      omega
    have h3 : 0 < d * nanosPerSecond := Int.mul_pos hd hN
    constructor
    · intro h; omega
    · intro h; omega

theorem TrafficLight.transitionDue_iff (loc : CycleLocals) (current_time : Int)
    (hd : 0 < loc.cycle_duration) :
    TrafficLight.transitionDue loc current_time = true ↔
      loc.cycle_duration * nanosPerSecond ≤ current_time - loc.last_update := by
  simp only [TrafficLight.transitionDue, TrafficLight.timeSinceLastUpdate, ge_iff_le,
    decide_eq_true_eq]
  exact tdiv_ge_iff_of_pos hd

theorem TrafficLight.cycleThroughPhasesIter_due (distr : Nat → Int × Nat) (tl : TrafficLight)
    (loc : CycleLocals) (c u : Int) (h : TrafficLight.transitionDue loc c = true) :
    TrafficLight.cycleThroughPhasesIter distr tl loc c u =
      ( ⟨tl._currentPhase.opposite, tl._message_queue ++ [tl._currentPhase.opposite]⟩,
        ⟨(distr loc.eng).2, (distr loc.eng).1, u⟩ ) := by
  simp only [TrafficLight.transitionDue, TrafficLight.timeSinceLastUpdate, ge_iff_le,
    decide_eq_true_eq] at h
  obtain ⟨p, q⟩ := tl
  cases p <;>
    simp [TrafficLight.cycleThroughPhasesIter, h, TrafficLight.getCurrentPhase,
      MessageQueue.send, TrafficLightPhase.opposite]

theorem TrafficLight.cycleThroughPhasesIter_not_due (distr : Nat → Int × Nat)
    (tl : TrafficLight) (loc : CycleLocals) (c u : Int)
    (h : TrafficLight.transitionDue loc c = false) :
    TrafficLight.cycleThroughPhasesIter distr tl loc c u = (tl, loc) := by
  simp only [TrafficLight.transitionDue, TrafficLight.timeSinceLastUpdate, ge_iff_le,
    decide_eq_false_iff_not] at h
  simp [TrafficLight.cycleThroughPhasesIter, h]

/-- C5: one pass of the timer loop, for every current phase `p` (also one just written by
`setCurrentPhase`), channel content `q`, engine state, baseline and cycle duration `d` (a
positive whole number of seconds, as every draw from `[4, 6]` is).  If the elapsed time
`current_time - baseline` is at least `d` seconds, the phase becomes the opposite of `p`,
exactly that phase is appended to the channel, the baseline is reset to the new clock sample
and the duration is redrawn; otherwise the phase, the channel, the baseline, the duration
and the engine are all unchanged. -/
theorem timer_pass_effect (distr : Nat → Int × Nat) (p0 p : TrafficLightPhase)
    (q : List TrafficLightPhase) (eng : Nat) (d baseline current_time update_time : Int)
    (hd : 0 < d) :
    (d * nanosPerSecond ≤ current_time - baseline →
      TrafficLight.cycleThroughPhasesIter distr (TrafficLight.setCurrentPhase ⟨p0, q⟩ p)
          ⟨eng, d, baseline⟩ current_time update_time
        = ( ⟨p.opposite, q ++ [p.opposite]⟩,
            ⟨(distr eng).2, (distr eng).1, update_time⟩ )) ∧
    (current_time - baseline < d * nanosPerSecond →
      TrafficLight.cycleThroughPhasesIter distr (TrafficLight.setCurrentPhase ⟨p0, q⟩ p)
          ⟨eng, d, baseline⟩ current_time update_time
        = (⟨p, q⟩, ⟨eng, d, baseline⟩)) ∧
    p.opposite ≠ p := by
  have hiff := TrafficLight.transitionDue_iff ⟨eng, d, baseline⟩ current_time hd
  refine ⟨?_, ?_, by cases p <;> decide⟩
  · intro h
    exact TrafficLight.cycleThroughPhasesIter_due distr ⟨p, q⟩ _ _ _ (hiff.2 h)
  · intro h
    apply TrafficLight.cycleThroughPhasesIter_not_due distr ⟨p, q⟩
    cases hdue : TrafficLight.transitionDue ⟨eng, d, baseline⟩ current_time
    · rfl
    · have := hiff.1 hdue
      simp only at this
      omega

/-- C5 at concrete passes: phase `red`, channel `[green]`, duration 5 s and baseline 0;
at 5.2 s the pass flips to `green`, publishes it, stores the new baseline and redraws; at
4.999999999 s nothing changes. -/
theorem timer_pass_effect_witness :
    TrafficLight.cycleThroughPhasesIter cyclingDistr ⟨red, [green]⟩ ⟨7, 5, 0⟩
        5200000000 5200300000
      = (⟨green, [green, green]⟩, ⟨8, 5, 5200300000⟩) ∧
    TrafficLight.cycleThroughPhasesIter cyclingDistr ⟨red, [green]⟩ ⟨7, 5, 0⟩
        4999999999 4999999999
      = (⟨red, [green]⟩, ⟨7, 5, 0⟩) :=
  ⟨(timer_pass_effect cyclingDistr green red [green] 7 5 0 5200000000 5200300000
      (by decide)).1 (by decide),
   (timer_pass_effect cyclingDistr green red [green] 7 5 0 4999999999 4999999999
      (by decide)).2.1 (by decide)⟩

/-! ### Invariants of the controller with its timer task and its waiters -/

theorem alternation_succ (n : Nat) :
    alternation (n + 1) = alternation n ++ [if n % 2 = 0 then green else red] := by
  simp [alternation, List.range_succ]

theorem alternation_length (n : Nat) : (alternation n).length = n := by
  simp [alternation]

theorem alternation_getElem? (n k : Nat) (h : k < n) :
    (alternation n)[k]? = some (if k % 2 = 0 then green else red) := by
  simp [alternation, List.getElem?_map, List.getElem?_range h]

theorem count_set_returned (l : List Waiter) :
    ∀ i : Nat, l[i]? = some Waiter.looping →
      (l.set i Waiter.returned).count Waiter.returned = l.count Waiter.returned + 1 := by
  induction l with
  | nil => intro i h; simp at h
  | cons w rest ih =>
    intro i h
    cases i with
    | zero =>
      simp only [List.getElem?_cons_zero, Option.some.injEq] at h
      subst h
      simp [List.count_cons]
    | succ j =>
      simp only [List.getElem?_cons_succ] at h
      simp only [List.set_cons_succ, List.count_cons, ih j h]
      omega

theorem set_looping (l : List Waiter) :
    ∀ i : Nat, l[i]? = some Waiter.looping → l.set i Waiter.looping = l := by
  induction l with
  | nil => intro i h; simp at h
  | cons w rest ih =>
    intro i h
    cases i with
    | zero =>
      simp only [List.getElem?_cons_zero, Option.some.injEq] at h
      subst h
      rfl
    | succ j =>
      simp only [List.getElem?_cons_succ] at h
      simp [ih j h]

theorem Inv.fresh : Inv System.fresh Observed.start := by
  constructor <;> simp [System.fresh, Observed.start, TrafficLight.new, alternation,
    System.returnedCount]

theorem le_sinceEmpty {T : Type} [DecidableEq T] (q : List T) (n : Nat) (h : q.length ≤ n) :
    q.length ≤ (if q = [] then 0 else n) := by
  by_cases hq : q = []
  · simp [hq]
  · simp [hq, h]

theorem Inv.of_same {s s1 : System} {o o1 : Observed} (h : Inv s o)
    (hl : s1.light = s.light) (hw : s1.returnedCount = s.returnedCount)
    (ht : o1.taken = o.taken) (hs : o1.sent = o.sent) (hr : o1.removed = o.removed)
    (he : o1.sinceEmpty = if s.light._message_queue = [] then 0 else o.sinceEmpty) :
    Inv s1 o1 := by
  obtain ⟨h1, h2, h3, h4, h5, h6⟩ := h
  constructor
  · rw [hs, ht]; exact h1
  · rw [hs]; exact h2
  · rw [hs, hl]; exact h3
  · rw [hs, hr, hl]; exact h4
  · rw [he, hl]; exact le_sinceEmpty _ _ h5
  · rw [hw, hr]; exact h6

theorem Inv.inv_step (distr : Nat → Int × Nat) (s s1 : System) (o : Observed) (e : Event)
    (hs : System.step distr s e = some s1) (h : Inv s o) :
    Inv s1 (Observed.record s e s1 o) := by
  cases e with
  | simulate seed now =>
    cases htimer : s.timer with
    | some loc => simp [System.step, htimer] at hs
    | none =>
      simp only [System.step, htimer, Option.some.injEq] at hs
      subst hs
      exact Inv.of_same h rfl rfl rfl rfl rfl rfl
  | call =>
    simp only [System.step, Option.some.injEq] at hs
    subst hs
    refine Inv.of_same h rfl ?_ rfl rfl rfl rfl
    simp [System.returnedCount, List.count_append]
  | tick c u =>
    cases htimer : s.timer with
    | none => simp [System.step, htimer] at hs
    | some loc =>
      simp only [System.step, htimer, Option.some.injEq] at hs
      cases hdue : TrafficLight.transitionDue loc c
      · rw [TrafficLight.cycleThroughPhasesIter_not_due distr _ _ _ _ hdue] at hs
        subst hs
        refine Inv.of_same h rfl rfl ?_ ?_ rfl ?_ <;>
          simp [Observed.record, Observed.isTransition, htimer, hdue]
      · rw [TrafficLight.cycleThroughPhasesIter_due distr _ _ _ _ hdue] at hs
        subst hs
        obtain ⟨h1, h2, h3, h4, h5, h6⟩ := h
        have hp : s.light._currentPhase.opposite
            = if o.sent.length % 2 = 0 then green else red := by
          rw [h3]; split <;> rfl
        constructor
        · simp [Observed.record, Observed.isTransition, htimer, hdue, h1]
        · simp only [Observed.record, Observed.isTransition, htimer, hdue, if_true,
            List.getLast?_concat, Option.toList, List.length_append, List.length_singleton,
            alternation_succ, ← hp]
          rw [← h2]
        · simp only [Observed.record, Observed.isTransition, htimer, hdue, if_true,
            List.getLast?_concat, Option.toList, List.length_append, List.length_singleton]
          rw [hp]
          split <;> split <;> first | rfl | omega
        · simp only [Observed.record, Observed.isTransition, Observed.isReceive, htimer, hdue,
            if_true, List.getLast?_concat, Option.toList]
          simp only [Bool.false_eq_true, if_false, ← List.append_assoc]
          exact List.Perm.append_right _ h4
        · simp only [Observed.record, Observed.isTransition, htimer, hdue, if_true]
          simp
          exact h5
        · simp only [Observed.record, Observed.isReceive]
          simpa [System.returnedCount] using h6
  | receive i =>
    obtain ⟨⟨p, q⟩, timer, ws⟩ := s
    obtain ⟨h1, h2, h3, h4, h5, h6⟩ := h
    simp only [System.returnedCount] at h3 h4 h5 h6
    simp only [System.step] at hs
    cases hw : ws[i]? with
    | none => simp [hw] at hs
    | some w =>
      cases w with
      | returned => simp [hw] at hs
      | looping =>
        rcases eq_nil_or_snoc q with hq | ⟨rest, msg, hq⟩
        · subst hq
          simp [hw, TrafficLight.waitForGreenIter_nil] at hs
        · subst hq
          simp only [hw, TrafficLight.waitForGreenIter_snoc, Option.some.injEq] at hs
          subst hs
          constructor
          · simp [Observed.record, Observed.isTransition, h1]
          · simpa [Observed.record, Observed.isTransition] using h2
          · simpa [Observed.record, Observed.isTransition] using h3
          · simp only [Observed.record, Observed.isTransition, Observed.isReceive,
              Bool.false_eq_true, if_false, if_true, List.getLast?_concat, Option.toList]
            refine List.Perm.trans ?_ h4
            rw [List.append_assoc]
            exact List.Perm.append_left _ List.perm_append_comm
          · simp only [Observed.record, Observed.isTransition, Bool.false_eq_true, if_false]
            apply le_sinceEmpty
            simp at h5
            omega
          · simp only [Observed.record, Observed.isReceive, if_true, List.getLast?_concat,
              Option.toList, System.returnedCount, List.count_append]
            by_cases hm : msg = green
            · subst hm
              simp only [decide_True, if_true, count_set_returned ws i hw]
              simp
              exact h6
            · simp only [hm, decide_False, Bool.false_eq_true, if_false, set_looping ws i hw]
              have hz : List.count green [msg] = 0 := by
                simp [List.count_singleton, hm]
              omega

theorem Inv.inv_run (distr : Nat → Int × Nat) (events : List Event) :
    ∀ (s : System) (o : Observed) (s1 : System) (o1 : Observed),
      System.run distr (s, o) events = some (s1, o1) → Inv s o → Inv s1 o1 := by
  induction events with
  | nil =>
    intro s o s1 o1 h hi
    simp only [System.run, Option.some.injEq, Prod.mk.injEq] at h
    rw [← h.1, ← h.2]
    exact hi
  | cons e rest ih =>
    intro s o s1 o1 h hi
    simp only [System.run] at h
    cases hstep : System.step distr s e with
    | none => simp [hstep] at h
    | some s2 =>
      simp only [hstep] at h
      exact ih s2 _ s1 o1 h (Inv.inv_step distr s s2 o e hstep hi)

theorem Inv.reachable (distr : Nat → Int × Nat) (s : System) (o : Observed)
    (h : System.Reachable distr s o) : Inv s o := by
  obtain ⟨events, hrun⟩ := h
  exact Inv.inv_run distr events _ _ s o hrun Inv.fresh

/-- C4: for a freshly constructed controller (phase `red`, empty channel) driven by the
timer loop, whatever the waiters do in between, the `k`-th transition publishes `green`
when `k` is odd and `red` when `k` is even; so no two consecutive transitions publish the
same value, the value published is the phase taken, and the current phase is `red` after
an even number of transitions and `green` after an odd number. -/
theorem transitions_alternate (distr : Nat → Int × Nat) (s : System) (o : Observed)
    (h : System.Reachable distr s o) :
    (∀ k : Nat, 1 ≤ k → k ≤ o.sent.length →
        o.sent[k - 1]? = some (if k % 2 = 1 then green else red)) ∧
    (∀ k : Nat, k + 1 < o.sent.length → o.sent[k]? ≠ o.sent[k + 1]?) ∧
    o.taken = o.sent ∧
    s.light._currentPhase = (if o.sent.length % 2 = 0 then red else green) := by
  have hi := Inv.reachable distr s o h
  have hget : ∀ j : Nat, j < o.sent.length →
      o.sent[j]? = some (if j % 2 = 0 then green else red) := by
    intro j hj
    rw [hi.alternates]
    exact alternation_getElem? _ _ hj
  refine ⟨?_, ?_, hi.sent_eq.symm, hi.phase_eq⟩
  · intro k hk1 hk2
    rw [hget (k - 1) (by omega)]
    congr 1
    split <;> split <;> first | rfl | omega
  · intro k hk
    rw [hget k (by omega), hget (k + 1) hk]
    split <;> split <;> first | omega | simp

/-- C4 on the worked run `exampleEvents`: two transitions, publishing `green` then `red`. -/
theorem transitions_alternate_witness :
    System.Reachable cyclingDistr
      ⟨⟨red, []⟩, some ⟨3, 6, 9002000000⟩, [Waiter.returned, Waiter.looping]⟩
      ⟨[green, red], [green, red], [green, red], 0⟩ ∧
    (∀ k : Nat, 1 ≤ k → k ≤ [green, red].length →
        [green, red][k - 1]? = some (if k % 2 = 1 then green else red)) :=
  ⟨⟨exampleEvents, by decide⟩,
   (transitions_alternate cyclingDistr
      ⟨⟨red, []⟩, some ⟨3, 6, 9002000000⟩, [Waiter.returned, Waiter.looping]⟩
      ⟨[green, red], [green, red], [green, red], 0⟩ ⟨exampleEvents, by decide⟩).1⟩

/-- C7: in every state reached from construction by timer passes and waiter receives, the
channel holds at most as many entries as transitions have occurred since it was last empty;
every value removed by `receive`, and every value in the channel, is the phase taken at an
earlier transition; indeed the values removed together with the values still in the channel
are exactly the phases taken, each as often as it was taken. -/
theorem channel_bounded_and_genuine (distr : Nat → Int × Nat) (s : System) (o : Observed)
    (h : System.Reachable distr s o) :
    s.light._message_queue.length ≤ o.sinceEmpty ∧
    (∀ x ∈ o.removed, x ∈ o.taken) ∧
    (∀ x ∈ s.light._message_queue, x ∈ o.taken) ∧
    List.Perm (o.removed ++ s.light._message_queue) o.taken := by
  have hi := Inv.reachable distr s o h
  have hperm : List.Perm (o.removed ++ s.light._message_queue) o.taken := by
    rw [← hi.sent_eq]; exact hi.conserved
  refine ⟨hi.bounded, ?_, ?_, hperm⟩
  · intro x hx
    exact hperm.subset (List.mem_append_left _ hx)
  · intro x hx
    exact hperm.subset (List.mem_append_right _ hx)

/-- C7 on the worked run `backlogEvents`: three transitions since the channel was empty, two
entries left in it after one receive. -/
theorem channel_bounded_and_genuine_witness :
    System.Reachable cyclingDistr
      ⟨⟨green, [green, red]⟩, some ⟨9, 6, 15000001000⟩, [Waiter.returned]⟩
      ⟨[green, red, green], [green, red, green], [green], 3⟩ ∧
    [green, red].length ≤ 3 ∧ (∀ x ∈ [green], x ∈ [green, red, green]) :=
  ⟨⟨backlogEvents, by decide⟩,
   (channel_bounded_and_genuine cyclingDistr
      ⟨⟨green, [green, red]⟩, some ⟨9, 6, 15000001000⟩, [Waiter.returned]⟩
      ⟨[green, red, green], [green, red, green], [green], 3⟩ ⟨backlogEvents, by decide⟩).1,
   (channel_bounded_and_genuine cyclingDistr
      ⟨⟨green, [green, red]⟩, some ⟨9, 6, 15000001000⟩, [Waiter.returned]⟩
      ⟨[green, red, green], [green, red, green], [green], 3⟩
      ⟨backlogEvents, by decide⟩).2.1⟩

/-- C10: in every state reached by one timer loop and any number of `waitForGreen` callers,
the number of calls that have returned is at most the number of `green` values sent so far,
and the number of values received by all waiters together is at most the number of values
sent. -/
theorem returned_le_greens_sent (distr : Nat → Int × Nat) (s : System) (o : Observed)
    (h : System.Reachable distr s o) :
    s.returnedCount ≤ o.sent.count green ∧ o.removed.length ≤ o.sent.length := by
  have hi := Inv.reachable distr s o h
  have hc := hi.conserved.count_eq green
  have hl := hi.conserved.length_eq
  rw [List.count_append] at hc
  rw [List.length_append] at hl
  have hr := hi.returned_eq
  constructor <;> omega

/-- C10 on the worked run `exampleEvents`: one call returned, one `green` sent; two values
received, two sent. -/
theorem returned_le_greens_sent_witness :
    System.returnedCount
        ⟨⟨red, []⟩, some ⟨3, 6, 9002000000⟩, [Waiter.returned, Waiter.looping]⟩ = 1 ∧
    System.returnedCount
        ⟨⟨red, []⟩, some ⟨3, 6, 9002000000⟩, [Waiter.returned, Waiter.looping]⟩
      ≤ [green, red].count green :=
  ⟨by decide,
   (returned_le_greens_sent cyclingDistr
      ⟨⟨red, []⟩, some ⟨3, 6, 9002000000⟩, [Waiter.returned, Waiter.looping]⟩
      ⟨[green, red], [green, red], [green, red], 0⟩ ⟨exampleEvents, by decide⟩).1⟩

/-! ### Timing of the controller with its waiters -/

theorem TimedInv.timed_step (distr : Nat → Int × Nat) (hd : DistrInRange distr)
    (start last : Int) (s s1 : System) (o : Observed) (e : Event)
    (hs : System.step distr s e = some s1) (h : TimedInv start last s o)
    (hstart : start ≤ last) (hchain : List.Chain (· ≤ ·) last e.samples) :
    ∃ last1 : Int, TimedInv start last1 s1 (Observed.record s e s1 o) ∧ last ≤ last1 ∧
      (last1 = last ∨ last1 ∈ e.samples) ∧
      ∀ rest : List Int, List.Chain (· ≤ ·) last (e.samples ++ rest) →
        List.Chain (· ≤ ·) last1 rest := by
  cases e with
  | simulate seed now =>
    cases htimer : s.timer with
    | some loc => simp [System.step, htimer] at hs
    | none =>
      simp only [System.step, htimer, Option.some.injEq] at hs
      subst hs
      simp only [Event.samples, List.chain_cons] at hchain
      simp only [TimedInv, htimer] at h
      refine ⟨now, ?_, hchain.1, Or.inr (by simp [Event.samples]), ?_⟩
      · simp only [TimedInv, TrafficLight.cycleThroughPhasesEnter, Observed.record,
          Observed.isTransition, Bool.false_eq_true, if_false, h]
        refine ⟨hd seed, ?_, le_refl _⟩
        simp only [Nat.cast_zero, mul_zero, add_zero]
        omega
      · intro rest hr
        simp only [Event.samples, List.singleton_append, List.chain_cons] at hr
        exact hr.2
  | call =>
    simp only [System.step, Option.some.injEq] at hs
    subst hs
    refine ⟨last, ?_, le_refl _, Or.inl rfl, ?_⟩
    · simpa [TimedInv, Observed.record, Observed.isTransition] using h
    · intro rest hr
      simpa [Event.samples] using hr
  | receive i =>
    simp only [System.step] at hs
    refine ⟨last, ?_, le_refl _, Or.inl rfl, ?_⟩
    · cases hw : s.waiters[i]? with
      | none => simp [hw] at hs
      | some w =>
        cases w with
        | returned => simp [hw] at hs
        | looping =>
          cases hit : TrafficLight.waitForGreenIter s.light with
          | none => simp [hw, hit] at hs
          | some r =>
            simp only [hw, hit, Option.some.injEq] at hs
            subst hs
            simpa [TimedInv, Observed.record, Observed.isTransition] using h
    · intro rest hr
      simpa [Event.samples] using hr
  | tick c u =>
    cases htimer : s.timer with
    | none => simp [System.step, htimer] at hs
    | some loc =>
      simp only [System.step, htimer, Option.some.injEq] at hs
      simp only [Event.samples, List.chain_cons] at hchain
      simp only [TimedInv, htimer] at h
      obtain ⟨h4, hbase, hlast⟩ := h
      refine ⟨u, ?_, by omega, Or.inr (by simp [Event.samples]), ?_⟩
      · cases hdue : TrafficLight.transitionDue loc c
        · rw [TrafficLight.cycleThroughPhasesIter_not_due distr _ _ _ _ hdue] at hs
          subst hs
          simp only [TimedInv, Observed.record, Observed.isTransition, htimer, hdue,
            Bool.false_eq_true, if_false]
          exact ⟨h4, hbase, by omega⟩
        · have hel := (TrafficLight.transitionDue_iff loc c (by omega)).1 hdue
          rw [TrafficLight.cycleThroughPhasesIter_due distr _ _ _ _ hdue] at hs
          subst hs
          simp only [TimedInv, Observed.record, Observed.isTransition, htimer, hdue, if_true,
            List.getLast?_concat, Option.toList, List.length_append, List.length_singleton]
          refine ⟨hd loc.eng, ?_, le_refl _⟩
          simp only [nanosPerSecond] at hel
          push_cast
          omega
      · intro rest hr
        simp only [Event.samples, List.cons_append, List.nil_append, List.chain_cons] at hr
        exact hr.2.2

theorem TimedInv.timed_run (distr : Nat → Int × Nat) (hd : DistrInRange distr) (start : Int)
    (events : List Event) :
    ∀ (s : System) (o : Observed) (last : Int) (s1 : System) (o1 : Observed),
      System.run distr (s, o) events = some (s1, o1) → TimedInv start last s o →
      start ≤ last → List.Chain (· ≤ ·) last (clockSamples events) →
      ∃ last1 : Int, TimedInv start last1 s1 o1 ∧
        (last1 = last ∨ last1 ∈ clockSamples events) := by
  induction events with
  | nil =>
    intro s o last s1 o1 h hi _ _
    simp only [System.run, Option.some.injEq, Prod.mk.injEq] at h
    rw [← h.1, ← h.2]
    exact ⟨last, hi, Or.inl rfl⟩
  | cons e rest ih =>
    intro s o last s1 o1 h hi hstart hchain
    simp only [System.run] at h
    cases hstep : System.step distr s e with
    | none => simp [hstep] at h
    | some s2 =>
      simp only [hstep] at h
      simp only [clockSamples] at hchain
      have hhead : List.Chain (· ≤ ·) last e.samples := by
        have hc : List.Chain' (· ≤ ·) ((last :: e.samples) ++ clockSamples rest) := hchain
        exact hc.left_of_append
      obtain ⟨last2, hi2, hle, hmem, hrest⟩ :=
        TimedInv.timed_step distr hd start last s s2 o e hstep hi hstart hhead
      obtain ⟨last1, hi1, h1⟩ :=
        ih s2 _ last2 s1 o1 h hi2 (le_trans hstart hle) (hrest _ hchain)
      refine ⟨last1, hi1, ?_⟩
      rcases h1 with h1 | h1
      · rcases hmem with hmem | hmem
        · exact Or.inl (h1.trans hmem)
        · exact Or.inr (List.mem_append_left _ (h1 ▸ hmem))
      · exact Or.inr (List.mem_append_right _ h1)

theorem timed_reachable (distr : Nat → Int × Nat) (hd : DistrInRange distr)
    (start : Int) (events : List Event) (s : System) (o : Observed)
    (hrun : System.run distr (System.fresh, Observed.start) events = some (s, o))
    (hmono : List.Chain (· ≤ ·) start (clockSamples events))
    (hdead : ∀ t ∈ clockSamples events, t ≤ start + 6100000000) :
    ∃ last1 : Int, TimedInv start last1 s o ∧ last1 ≤ start + 6100000000 := by
  have h0 : TimedInv start start System.fresh Observed.start := by
    simp [TimedInv, System.fresh, Observed.start]
  obtain ⟨last1, hi1, h1⟩ :=
    TimedInv.timed_run distr hd start events _ _ start s o hrun h0 (le_refl _) hmono
  refine ⟨last1, hi1, ?_⟩
  rcases h1 with h1 | h1
  · omega
  · exact hdead _ h1

/-- In a run from a fresh controller whose clock samples never decrease from `start` on and
never exceed `start + 6.1 s`, at most one transition has happened. -/
theorem transitions_within_deadline (distr : Nat → Int × Nat) (hd : DistrInRange distr)
    (start : Int) (events : List Event) (s : System) (o : Observed)
    (hrun : System.run distr (System.fresh, Observed.start) events = some (s, o))
    (hmono : List.Chain (· ≤ ·) start (clockSamples events))
    (hdead : ∀ t ∈ clockSamples events, t ≤ start + 6100000000) :
    o.sent.length ≤ 1 := by
  obtain ⟨last1, hi1, hl⟩ := timed_reachable distr hd start events s o hrun hmono hdead
  unfold TimedInv at hi1
  cases htimer : s.timer with
  | none => simp only [htimer] at hi1; omega
  | some loc =>
    simp only [htimer] at hi1
    omega

theorem returned_within_deadline (distr : Nat → Int × Nat) (hd : DistrInRange distr)
    (start : Int) (events : List Event) (s : System) (o : Observed)
    (hrun : System.run distr (System.fresh, Observed.start) events = some (s, o))
    (hmono : List.Chain (· ≤ ·) start (clockSamples events))
    (hdead : ∀ t ∈ clockSamples events, t ≤ start + 6100000000) :
    s.returnedCount ≤ 1 ∧ (1 ≤ s.returnedCount → s.light.getCurrentPhase = green) := by
  have hn := transitions_within_deadline distr hd start events s o hrun hmono hdead
  have hi := Inv.reachable distr s o ⟨events, hrun⟩
  have hc := hi.conserved.count_eq green
  rw [List.count_append] at hc
  have hr := hi.returned_eq
  have hcl : o.sent.count green ≤ o.sent.length := List.count_le_length _ _
  refine ⟨by omega, ?_⟩
  intro h1
  have hlen : o.sent.length = 1 := by omega
  have hp := hi.phase_eq
  rw [hlen] at hp
  simpa [TrafficLight.getCurrentPhase] using hp

theorem cyclingDistr_inRange : DistrInRange cyclingDistr := by
  intro eng
  simp only [cyclingDistr]
  omega

/-- C9, as the code behaves.  Take any run from a freshly constructed controller, with
`simulate()` called once and any number of `waitForGreen` callers (in particular 3), whose
clock samples never decrease and lie within 6.1 s of the start.
* At most one transition has happened, and it published `green`.
* Exactly one waiter returns per `green` received: the number of returned calls equals the
  number of values received, and together with the channel content it equals the number of
  transitions; so at most one call has returned, and then `getCurrentPhase()` reads `green`.
* Before the transition, the duration `d` in force is in `[4, 6]` and every timer pass whose
  clock sample is at least `d` seconds after the baseline performs the transition, leaving
  the phase `green` and the channel holding `[green]`.
* While the `green` is in the channel, the pass of every waiting task completes its
  `receive` and returns, which empties the channel: that task is the one that returns.
* Once the channel is empty again, every `receive` blocks: no other task returns. -/
theorem scenario_one_waiter_returns (distr : Nat → Int × Nat) (hd : DistrInRange distr)
    (start : Int) (events : List Event) (s : System) (o : Observed)
    (hrun : System.run distr (System.fresh, Observed.start) events = some (s, o))
    (hmono : List.Chain (· ≤ ·) start (clockSamples events))
    (hdead : ∀ t ∈ clockSamples events, t ≤ start + 6100000000) :
    (o.sent = [] ∨ o.sent = [green]) ∧
    s.returnedCount = o.removed.length ∧
    s.returnedCount + s.light._message_queue.length = o.sent.length ∧
    s.returnedCount ≤ 1 ∧
    (1 ≤ s.returnedCount → s.light.getCurrentPhase = green) ∧
    (∀ loc : CycleLocals, s.timer = some loc → o.sent = [] →
      4 ≤ loc.cycle_duration ∧ loc.cycle_duration ≤ 6 ∧
      ∀ current_time update_time : Int,
        loc.cycle_duration * nanosPerSecond ≤ current_time - loc.last_update →
        ∃ s1, System.step distr s (Event.tick current_time update_time) = some s1 ∧
          s1.light = ⟨green, [green]⟩ ∧ s1.waiters = s.waiters) ∧
    (∀ i : Nat, s.waiters[i]? = some Waiter.looping → s.light._message_queue ≠ [] →
      ∃ s1, System.step distr s (Event.receive i) = some s1 ∧
        s1.waiters = s.waiters.set i Waiter.returned ∧
        s1.returnedCount = 1 ∧ s1.light = ⟨green, []⟩) ∧
    (s.light._message_queue = [] →
      ∀ i : Nat, System.step distr s (Event.receive i) = none) := by
  have hi := Inv.reachable distr s o ⟨events, hrun⟩
  obtain ⟨last1, ht, _⟩ := timed_reachable distr hd start events s o hrun hmono hdead
  have hn := transitions_within_deadline distr hd start events s o hrun hmono hdead
  obtain ⟨⟨p, q⟩, timer, ws⟩ := s
  have hsent : o.sent = [] ∨ o.sent = [green] := by
    rcases Nat.le_one_iff_eq_zero_or_eq_one.1 hn with h0 | h1
    · exact Or.inl (List.length_eq_zero.1 h0)
    · right
      rw [hi.alternates, h1]
      rfl
  have hperm : List.Perm (o.removed ++ q) o.sent := hi.conserved
  have hgreen : ∀ x ∈ o.removed ++ q, green = x := by
    intro x hx
    have hx1 := hperm.subset hx
    rcases hsent with h | h
    · rw [h] at hx1; simp at hx1
    · rw [h] at hx1; exact (List.mem_singleton.1 hx1).symm
  have hcount : o.removed.count green = o.removed.length :=
    List.count_eq_length.2 (fun x hx => hgreen x (List.mem_append_left _ hx))
  have hlen := hperm.length_eq
  rw [List.length_append] at hlen
  have hret : List.count Waiter.returned ws = o.removed.count green := hi.returned_eq
  have hphase : p = if o.sent.length % 2 = 0 then red else green := hi.phase_eq
  refine ⟨hsent, ?_, ?_, ?_, ?_, ?_, ?_, ?_⟩
  · simp only [System.returnedCount]; omega
  · simp only [System.returnedCount]; omega
  · simp only [System.returnedCount]; omega
  · simp only [System.returnedCount, TrafficLight.getCurrentPhase]
    intro h1
    have hl1 : o.sent.length = 1 := by omega
    rw [hl1] at hphase
    exact hphase
  · intro loc htimer hs0
    simp only at htimer
    subst htimer
    simp only [TimedInv] at ht
    refine ⟨ht.1.1, ht.1.2, ?_⟩
    intro c u hel
    have hdue := (TrafficLight.transitionDue_iff loc c (by omega)).2 hel
    have hl0 : o.sent.length = 0 := by rw [hs0]; rfl
    have hq : q = [] := List.length_eq_zero.1 (by omega)
    have hp : p = red := by rw [hl0] at hphase; exact hphase
    subst hq hp
    refine ⟨_, rfl, ?_, ?_⟩
    · simp only [TrafficLight.cycleThroughPhasesIter_due distr _ _ _ _ hdue]
      rfl
    · rfl
  · intro i hw hq
    simp only at hw hq
    have hs1 : o.sent = [green] := by
      rcases hsent with h | h
      · have hl0 : o.sent.length = 0 := by rw [h]; rfl
        exact absurd (List.length_eq_zero.1 (by omega)) hq
      · exact h
    have hl1 : o.sent.length = 1 := by rw [hs1]; rfl
    have hql : q.length = 1 := by
      have : q.length ≠ 0 := fun h => hq (List.length_eq_zero.1 h)
      omega
    have hqg : q = [] ++ [green] := by
      obtain ⟨x, hx⟩ := List.length_eq_one.1 hql
      have := hgreen x (List.mem_append_right _ (by rw [hx]; simp))
      rw [hx, ← this]
      rfl
    have hp : p = green := by rw [hl1] at hphase; exact hphase
    subst hp
    rw [hqg]
    simp only [System.step, hw, TrafficLight.waitForGreenIter_snoc, decide_True, if_true]
    refine ⟨_, rfl, rfl, ?_, rfl⟩
    simp only [System.returnedCount, count_set_returned ws i hw]
    omega
  · intro hq i
    simp only at hq
    subst hq
    cases hw : ws[i]? with
    | none => simp [System.step, hw]
    | some w =>
      cases w with
      | returned => simp [System.step, hw]
      | looping => simp [System.step, hw, TrafficLight.waitForGreenIter_nil]

/-- C9 on the scenario with three waiters.  On `publishedEvents` (the first transition has
published `green`) the pass of the second waiter completes and that waiter returns; on
`scenarioEvents` (it has returned) the `receive` of the first waiter blocks. -/
theorem scenario_one_waiter_returns_witness :
    System.run cyclingDistr (System.fresh, Observed.start) publishedEvents
      = some ( ⟨⟨green, [green]⟩, some ⟨2, 5, 4000020000⟩,
                 [Waiter.looping, Waiter.looping, Waiter.looping]⟩,
               ⟨[green], [green], [], 1⟩ ) ∧
    (∃ s1, System.step cyclingDistr
          ⟨⟨green, [green]⟩, some ⟨2, 5, 4000020000⟩,
            [Waiter.looping, Waiter.looping, Waiter.looping]⟩ (Event.receive 1) = some s1 ∧
        s1.waiters = [Waiter.looping, Waiter.returned, Waiter.looping] ∧
        s1.returnedCount = 1 ∧ s1.light = ⟨green, []⟩) ∧
    System.step cyclingDistr
        ⟨⟨green, []⟩, some ⟨2, 5, 4000020000⟩,
          [Waiter.looping, Waiter.returned, Waiter.looping]⟩ (Event.receive 0) = none :=
  ⟨by decide,
   (scenario_one_waiter_returns cyclingDistr cyclingDistr_inRange 0 publishedEvents
      ⟨⟨green, [green]⟩, some ⟨2, 5, 4000020000⟩,
        [Waiter.looping, Waiter.looping, Waiter.looping]⟩
      ⟨[green], [green], [], 1⟩ (by decide)
      (by simp [publishedEvents, clockSamples, Event.samples])
      (by simp [publishedEvents, clockSamples, Event.samples])).2.2.2.2.2.2.1 1
      (by decide) (by decide),
   (scenario_one_waiter_returns cyclingDistr cyclingDistr_inRange 0 scenarioEvents
      ⟨⟨green, []⟩, some ⟨2, 5, 4000020000⟩,
        [Waiter.looping, Waiter.returned, Waiter.looping]⟩
      ⟨[green], [green], [green], 0⟩ (by decide)
      (by simp [scenarioEvents, clockSamples, Event.samples])
      (by simp [scenarioEvents, clockSamples, Event.samples])).2.2.2.2.2.2.2 rfl 0⟩

/-- C9 fails as stated: there is no run from a freshly constructed controller, with
non-decreasing clock samples all within 6.1 s of the start, after which three
`waitForGreen` calls have returned.  On the run `scenarioEvents` one of the three waiters
has returned and the other two are blocked in `receive` on the empty channel. -/
theorem scenario_three_waiters_counterexample :
    (¬ ∃ (distr : Nat → Int × Nat) (start : Int) (events : List Event) (s : System)
        (o : Observed),
        DistrInRange distr ∧
        System.run distr (System.fresh, Observed.start) events = some (s, o) ∧
        List.Chain (· ≤ ·) start (clockSamples events) ∧
        (∀ t ∈ clockSamples events, t ≤ start + 6100000000) ∧
        s.returnedCount = 3) ∧
    (∃ s o, System.run cyclingDistr (System.fresh, Observed.start) scenarioEvents
        = some (s, o) ∧
      s.waiters = [Waiter.looping, Waiter.returned, Waiter.looping] ∧
      System.step cyclingDistr s (Event.receive 0) = none ∧
      System.step cyclingDistr s (Event.receive 2) = none) := by
  constructor
  · rintro ⟨distr, start, events, s, o, hd, hrun, hmono, hdead, h3⟩
    have h := (returned_within_deadline distr hd start events s o hrun hmono hdead).1
    omega
  · exact ⟨⟨⟨green, []⟩, some ⟨2, 5, 4000020000⟩,
        [Waiter.looping, Waiter.returned, Waiter.looping]⟩,
      ⟨[green], [green], [green], 0⟩, by decide, rfl, by decide, by decide⟩

/-! ### Spacing of the transitions of the timer loop -/

theorem chain_forall_right {α : Type} {R : α → α → Prop} {P : α → Prop}
    (hRP : ∀ x y, R x y → P y) :
    ∀ (l : List α) (a : α), List.Chain R a l → ∀ y ∈ l, P y := by
  intro l
  induction l with
  | nil => intro a _ y hy; simp at hy
  | cons b rest ih =>
    intro a h y hy
    rw [List.chain_cons] at h
    rcases List.mem_cons.1 hy with hy | hy
    · rw [hy]; exact hRP a b h.1
    · exact ih b h.2 y hy

theorem TrafficLight.loop_queue_eq (distr : Nat → Int × Nat) (samples : List (Int × Int)) :
    ∀ st : TrafficLight × CycleLocals,
      (TrafficLight.cycleThroughPhasesLoop distr st samples).1._message_queue
        = st.1._message_queue
            ++ (TrafficLight.transitionsOf distr st samples).map Transition.published := by
  induction samples with
  | nil => intro st; simp [TrafficLight.cycleThroughPhasesLoop, TrafficLight.transitionsOf]
  | cons smp rest ih =>
    intro st
    obtain ⟨tl, loc⟩ := st
    obtain ⟨c, u⟩ := smp
    simp only [TrafficLight.cycleThroughPhasesLoop, TrafficLight.transitionsOf]
    cases hdue : TrafficLight.transitionDue loc c
    · rw [TrafficLight.cycleThroughPhasesIter_not_due distr _ _ _ _ hdue]
      simpa using ih (tl, loc)
    · rw [TrafficLight.cycleThroughPhasesIter_due distr _ _ _ _ hdue]
      simp [ih]

theorem TrafficLight.transitions_low (distr : Nat → Int × Nat) (hd : DistrInRange distr)
    (samples : List (Int × Int)) :
    ∀ (tl : TrafficLight) (loc : CycleLocals) (last : Int) (t0 : Transition),
      4 ≤ loc.cycle_duration → loc.cycle_duration ≤ 6 →
      nonDecreasing last samples = true →
      loc.last_update = t0.update_time → t0.current_time ≤ t0.update_time →
      t0.update_time ≤ last →
      List.Chain LinkLow t0 (TrafficLight.transitionsOf distr (tl, loc) samples) := by
  induction samples with
  | nil => intro tl loc last t0 _ _ _ _ _ _; simp [TrafficLight.transitionsOf]
  | cons smp rest ih =>
    intro tl loc last t0 h4 h6 hmono hbase hcu hlast
    obtain ⟨c, u⟩ := smp
    simp only [nonDecreasing, Bool.and_eq_true, decide_eq_true_eq] at hmono
    obtain ⟨⟨hlc, hcu1⟩, hrest⟩ := hmono
    simp only [TrafficLight.transitionsOf]
    cases hdue : TrafficLight.transitionDue loc c
    · rw [TrafficLight.cycleThroughPhasesIter_not_due distr _ _ _ _ hdue]
      simp only [Bool.false_eq_true, if_false]
      exact ih tl loc u t0 h4 h6 hrest hbase hcu (by omega)
    · have hel := (TrafficLight.transitionDue_iff loc c (by omega)).1 hdue
      rw [TrafficLight.cycleThroughPhasesIter_due distr _ _ _ _ hdue]
      simp only [if_true]
      rw [List.chain_cons]
      refine ⟨⟨hbase, h4, h6, hel, hcu, hcu1⟩, ?_⟩
      exact ih _ _ u _ (hd loc.eng).1 (hd loc.eng).2 hrest rfl hcu1 (le_refl _)

theorem TrafficLight.transitions_upp (distr : Nat → Int × Nat) (hd : DistrInRange distr)
    (gap : Int) (samples : List (Int × Int)) :
    ∀ (tl : TrafficLight) (loc : CycleLocals) (last prev : Int) (t0 : Transition),
      4 ≤ loc.cycle_duration → loc.cycle_duration ≤ 6 →
      nonDecreasing last samples = true → ticksWithin gap prev samples = true →
      loc.last_update = t0.update_time → t0.update_time ≤ last → prev ≤ last →
      prev - loc.last_update < loc.cycle_duration * nanosPerSecond →
      (prev = t0.current_time ∨ t0.update_time - t0.current_time ≤ gap) →
      List.Chain (LinkUpp gap) t0 (TrafficLight.transitionsOf distr (tl, loc) samples) := by
  induction samples with
  | nil => intro tl loc last prev t0 _ _ _ _ _ _ _ _ _; simp [TrafficLight.transitionsOf]
  | cons smp rest ih =>
    intro tl loc last prev t0 h4 h6 hmono hticks hbase hlast hprev hnot hor
    obtain ⟨c, u⟩ := smp
    simp only [nonDecreasing, Bool.and_eq_true, decide_eq_true_eq] at hmono
    obtain ⟨⟨hlc, hcu1⟩, hrest⟩ := hmono
    simp only [ticksWithin, Bool.and_eq_true, decide_eq_true_eq] at hticks
    obtain ⟨hgap, hticks1⟩ := hticks
    simp only [TrafficLight.transitionsOf]
    cases hdue : TrafficLight.transitionDue loc c
    · have hel : ¬ loc.cycle_duration * nanosPerSecond ≤ c - loc.last_update := by
        intro hc
        have := (TrafficLight.transitionDue_iff loc c (by omega)).2 hc
        rw [hdue] at this
        exact Bool.noConfusion this
      rw [TrafficLight.cycleThroughPhasesIter_not_due distr _ _ _ _ hdue]
      simp only [Bool.false_eq_true, if_false]
      refine ih tl loc u c t0 h4 h6 hrest hticks1 hbase (by omega) hcu1 (by omega) ?_
      right
      rcases hor with hor | hor
      · omega
      · exact hor
    · rw [TrafficLight.cycleThroughPhasesIter_due distr _ _ _ _ hdue]
      simp only [if_true]
      rw [List.chain_cons]
      have hN : nanosPerSecond = 1000000000 := rfl
      refine ⟨⟨?_, ?_⟩, ?_⟩
      · simp only
        omega
      · simp only
        rw [hN] at hnot ⊢
        rcases hor with hor | hor <;> omega
      · have h4n := (hd loc.eng).1
        refine ih _ _ u c _ h4n (hd loc.eng).2 hrest hticks1 rfl (le_refl _) hcu1 ?_
          (Or.inl rfl)
        simp only
        rw [hN]
        omega

/-- C8, as the code behaves.  The timer is entered at `start` and makes one pass per element
of `samples`, the clock never going back.  Every transition uses a whole duration `d` with
`4 ≤ d ≤ 6` and is performed at a pass whose elapsed time since the baseline is at least
`d` seconds (the truncated elapsed time is `≥ d` exactly when the untruncated one is); each
transition's baseline is the sample stored by the one before, and two consecutive
transitions are at least 4 s apart, by the clock samples of the passes performing them and
by the baselines they store.  With passes at most
50 ms apart, the elapsed time since the baseline at a transition is less than `d` s + 50 ms
(so less than 6.05 s), and the clock samples of the passes performing two consecutive
transitions are less than 6.1 s apart.  The channel receives exactly the phases of the
recorded transitions. -/
theorem transition_spacing (distr : Nat → Int × Nat) (hd : DistrInRange distr)
    (tl : TrafficLight) (seed : Nat) (start : Int) (samples : List (Int × Int))
    (hmono : nonDecreasing start samples = true) :
    (∀ t ∈ TrafficLight.transitionsOf distr
          (tl, TrafficLight.cycleThroughPhasesEnter distr seed start) samples,
        4 ≤ t.duration ∧ t.duration ≤ 6 ∧
        t.duration * nanosPerSecond ≤ t.current_time - t.baseline) ∧
    List.Chain' (fun t t1 : Transition => t1.baseline = t.update_time ∧
        4 * nanosPerSecond ≤ t1.current_time - t.current_time ∧
        4 * nanosPerSecond ≤ t1.update_time - t.update_time)
      (TrafficLight.transitionsOf distr
        (tl, TrafficLight.cycleThroughPhasesEnter distr seed start) samples) ∧
    (ticksWithin 50000000 start samples = true →
      (∀ t ∈ TrafficLight.transitionsOf distr
            (tl, TrafficLight.cycleThroughPhasesEnter distr seed start) samples,
          t.current_time - t.baseline < t.duration * nanosPerSecond + 50000000 ∧
          t.current_time - t.baseline < 6050000000) ∧
      List.Chain' (fun t t1 : Transition => t1.current_time - t.current_time < 6100000000)
        (TrafficLight.transitionsOf distr
          (tl, TrafficLight.cycleThroughPhasesEnter distr seed start) samples)) ∧
    (∀ (loc : CycleLocals) (current_time : Int), 4 ≤ loc.cycle_duration →
      (loc.cycle_duration ≤ TrafficLight.timeSinceLastUpdate loc current_time ↔
        loc.cycle_duration * nanosPerSecond ≤ current_time - loc.last_update)) ∧
    (TrafficLight.cycleThroughPhasesLoop distr
        (tl, TrafficLight.cycleThroughPhasesEnter distr seed start) samples).1._message_queue
      = tl._message_queue ++ (TrafficLight.transitionsOf distr
          (tl, TrafficLight.cycleThroughPhasesEnter distr seed start) samples).map
            Transition.published := by
  have hN : nanosPerSecond = 1000000000 := rfl
  let t0 : Transition := ⟨start, 0, start, start, red⟩
  have h4 := (hd seed).1
  have h6 := (hd seed).2
  have hlow := TrafficLight.transitions_low distr hd samples tl
    (TrafficLight.cycleThroughPhasesEnter distr seed start) start t0 h4 h6 hmono rfl
    (le_refl _) (le_refl _)
  refine ⟨?_, ?_, ?_, ?_, TrafficLight.loop_queue_eq distr samples _⟩
  · exact chain_forall_right (R := LinkLow) (fun x y h => ⟨h.2.1, h.2.2.1, h.2.2.2.1⟩) _ t0 hlow
  · have hc : List.Chain' LinkLow (t0 :: TrafficLight.transitionsOf distr
        (tl, TrafficLight.cycleThroughPhasesEnter distr seed start) samples) := hlow
    refine hc.tail.imp ?_
    rintro t t1 ⟨h1, h2, _, h3, h5, h7⟩
    rw [hN] at h3 ⊢
    exact ⟨h1, by omega, by omega⟩
  · intro hticks
    have hupp := TrafficLight.transitions_upp distr hd 50000000 samples tl
      (TrafficLight.cycleThroughPhasesEnter distr seed start) start start t0 h4 h6 hmono hticks
      rfl (le_refl _) (le_refl _)
      (by simp only [TrafficLight.cycleThroughPhasesEnter]; rw [hN]; omega) (Or.inl rfl)
    constructor
    · intro t ht
      have hl : t.duration ≤ 6 :=
        (chain_forall_right (R := LinkLow) (P := fun y => y.duration ≤ 6)
          (fun x y h => h.2.2.1) _ t0 hlow t ht)
      have hu : t.current_time - t.baseline < t.duration * nanosPerSecond + 50000000 :=
        (chain_forall_right (R := LinkUpp 50000000)
          (P := fun y => y.current_time - y.baseline < y.duration * nanosPerSecond + 50000000)
          (fun x y h => h.1) _ t0 hupp t ht)
      refine ⟨hu, ?_⟩
      rw [hN] at hu
      omega
    · have hc : List.Chain' (LinkUpp 50000000) (t0 :: TrafficLight.transitionsOf distr
          (tl, TrafficLight.cycleThroughPhasesEnter distr seed start) samples) := hupp
      refine hc.tail.imp ?_
      rintro t t1 ⟨_, h2⟩
      rw [hN] at h2
      omega
  · intro loc c h4c
    simp only [TrafficLight.timeSinceLastUpdate]
    exact tdiv_ge_iff_of_pos (by omega)

theorem slowDistr_inRange : DistrInRange slowDistr := by
  intro eng
  simp [slowDistr]

set_option maxRecDepth 1000000 in
/-- C8 on the run `lateSamples`: two transitions, 6.098 s apart by the clock samples of
their passes, the second one 6.049 s after its baseline. -/
theorem transition_spacing_witness :
    nonDecreasing 0 lateSamples = true ∧ ticksWithin 50000000 0 lateSamples = true ∧
    List.Chain' (fun t t1 : Transition => t1.current_time - t.current_time < 6100000000)
      (TrafficLight.transitionsOf slowDistr
        (TrafficLight.new, TrafficLight.cycleThroughPhasesEnter slowDistr 0 0) lateSamples) :=
  ⟨by decide, by decide,
   ((transition_spacing slowDistr slowDistr_inRange TrafficLight.new 0 0 lateSamples
      (by decide)).2.2.1 (by decide)).2⟩

set_option maxRecDepth 1000000 in
/-- C8 fails as stated: on the run `lateSamples` the clock never goes back and the passes
are at most 50 ms apart, yet the two transitions are 6.098 s apart, both by the clock
samples of the passes performing them and by the baselines they store. -/
theorem transition_spacing_counterexample :
    DistrInRange slowDistr ∧
    nonDecreasing 0 lateSamples = true ∧ ticksWithin 50000000 0 lateSamples = true ∧
    ∃ t1 t2 : Transition,
      TrafficLight.transitionsOf slowDistr
          (TrafficLight.new, TrafficLight.cycleThroughPhasesEnter slowDistr 0 0) lateSamples
        = [t1, t2] ∧
      t2.current_time - t1.current_time = 6098000000 ∧
      t2.update_time - t1.update_time = 6098000000 ∧
      ¬ (t2.current_time - t1.current_time ≤ 6050000000) ∧
      ¬ (t2.update_time - t1.update_time ≤ 6050000000) :=
  ⟨slowDistr_inRange, by decide, by decide,
   ⟨0, 6, 6000000000, 6049000000, green⟩,
   ⟨6049000000, 6, 12098000000, 12147000000, red⟩,
   by decide, by decide, by decide, by decide, by decide⟩

end TrafficSim
